import Mathlib

/-!
Verification of the host-introspection layer of `newfetch` (`src/pulga.rs`)
against its natural-language specification.

The Rust functions are shallowly embedded as Lean functions:

* numeric formatters (`pretty_bytes`, `get_uptime`) become pure functions on
  `ℚ` / `ℕ` (the `f64` arithmetic of the source is idealised over the
  rationals) and `String`;
* file- and environment-reading functions become functions of the file or
  variable content, an `Option` input (`none` = unreadable / unset);
* Rust byte-slicing of UTF-8 strings (`&line[..11]`, `&line[13..]`, …) is
  modelled on the UTF-8 byte sequence of the line, and the possibility of a
  slicing panic is made explicit through the `RustResult` type below;
* the aggregator `get_user_data` becomes a function of a record of
  sub-lookup outcomes.
-/

namespace Newfetch

/-- Outcome of running a Rust function that may panic: either a panic
(out-of-bounds slice, failed `unwrap`, …) or a normal return value. -/
inductive RustResult (α : Type) where
  | panicked : RustResult α
  | value : α → RustResult α
deriving DecidableEq, Repr

/-! ## Duration formatter: `get_uptime` (pulga.rs lines 224-263) -/

/-- The fixed period table of `get_uptime`: seconds-per-unit and unit name,
in the source's order (year, 30-day month, day, hour, minute, second). -/
def periodsList : List (Nat × String) :=
  [(60 * 60 * 24 * 365, "year"),
   (60 * 60 * 24 * 30, "month"),
   (60 * 60 * 24, "day"),
   (60 * 60, "hour"),
   (60, "minute"),
   (1, "second")]

/-- The loop body of `get_uptime`: for each period compute the integer
quotient of the running value; when nonzero, append (space-separated)
`"<times> <name>"` plus a plural `'s'` when `times > 1`, and reduce the
running value to the remainder.  Mirrors the `for` loop of the source. -/
def uptimeLoop : List (Nat × String) → Nat → String → String
  | [], _, acc => acc
  | (period, periodName) :: rest, r, acc =>
    let times := r / period
    if times > 0 then
      let acc := if acc.isEmpty then acc else acc.push ' '
      let acc := acc ++ toString times ++ " " ++ periodName
      let acc := if times > 1 then acc.push 's' else acc
      uptimeLoop rest (r % period) acc
    else
      uptimeLoop rest r acc

/-- Embedding of `get_uptime`.  Note that the source binds
`uptime_in_seconds = uptime_in_centiseconds as u64` — a plain cast, with no
division by 100. -/
def getUptime (uptimeInCentiseconds : Nat) : String :=
  uptimeLoop periodsList uptimeInCentiseconds ""

/-- Spec-side rendering of one duration component: the count, a space, the
unit name, and the plural suffix `"s"` exactly when the count exceeds one
(spec section 4.2). -/
def componentStr (times : Nat) (name : String) : String :=
  toString times ++ " " ++ name ++ (if times > 1 then "s" else "")

/-- Spec-side greedy decomposition of a duration into its non-zero
components, in the period table's order: components with quotient zero are
omitted, and the running value is reduced to the remainder after each
emitted component. -/
def uptimeComponents : List (Nat × String) → Nat → List String
  | [], _ => []
  | (period, periodName) :: rest, r =>
    let times := r / period
    if times > 0 then
      componentStr times periodName :: uptimeComponents rest (r % period)
    else
      uptimeComponents rest r

/-- Spec-side space-joining of a component list (spec: "a space-joined human
string"). -/
def spaceJoin : List String → String
  | [] => ""
  | [x] => x
  | x :: y :: rest => x ++ " " ++ spaceJoin (y :: rest)

/-! ### String helper lemmas -/

theorem strEmpty_append (s : String) : "" ++ s = s := by
  cases s
  apply String.ext
  simp [String.data_append]

theorem strAppend_assoc (a b c : String) : a ++ b ++ c = a ++ (b ++ c) := by
  apply String.ext
  simp [String.data_append]

theorem strPush_eq_append (s : String) (c : Char) : s.push c = s ++ String.mk [c] := by
  apply String.ext
  simp [String.data_append, String.data_push]

theorem strData_empty : ("" : String).data = [] := rfl

theorem strAppend_empty (s : String) : s ++ "" = s := by
  apply String.ext
  simp [String.data_append, strData_empty]

theorem strIsEmpty_push_append (a b : String) (c : Char) :
    ((a.push c) ++ b).isEmpty = false := by
  rw [Bool.eq_false_iff]
  intro h
  have h2 := congrArg String.data ((String.isEmpty_iff _).mp h)
  simp [String.data_append, String.data_push, strData_empty] at h2

theorem componentStr_isEmpty_false (t : Nat) (name : String) :
    (componentStr t name).isEmpty = false := by
  rw [Bool.eq_false_iff]
  intro h
  have h2 := congrArg String.data ((String.isEmpty_iff _).mp h)
  by_cases ht : t > 1 <;>
    simp [componentStr, ht, String.data_append, strData_empty] at h2

/-! ### `get_uptime` is the space-join of the spec-side components -/

/-- The accumulator step of the source's loop, expressed on whole
component strings. -/
def joinStep (acc c : String) : String :=
  (if acc.isEmpty then acc else acc.push ' ') ++ c

/-- Space-prefixed tail join: helper for relating the fold to `spaceJoin`. -/
def preJoin : List String → String
  | [] => ""
  | x :: rest => " " ++ x ++ preJoin rest

theorem uptimeLoop_eq_foldl (ps : List (Nat × String)) :
    ∀ (r : Nat) (acc : String),
      uptimeLoop ps r acc = (uptimeComponents ps r).foldl joinStep acc := by
  induction ps with
  | nil => intro r acc; simp [uptimeLoop, uptimeComponents]
  | cons hd rest ih =>
    intro r acc
    obtain ⟨period, name⟩ := hd
    by_cases h : r / period > 0
    · rw [show uptimeLoop ((period, name) :: rest) r acc
            = uptimeLoop rest (r % period)
                (let a := if acc.isEmpty then acc else acc.push ' '
                 let a := a ++ toString (r / period) ++ " " ++ name
                 if r / period > 1 then a.push 's' else a) by
            simp [uptimeLoop, h]]
      rw [show uptimeComponents ((period, name) :: rest) r
            = componentStr (r / period) name :: uptimeComponents rest (r % period) by
            simp [uptimeComponents, h]]
      rw [List.foldl_cons, ih]
      congr 1
      show _ = joinStep acc (componentStr (r / period) name)
      unfold joinStep componentStr
      by_cases h1 : r / period > 1 <;>
        · simp only [h1, if_true, if_false, reduceIte]
          apply String.ext
          simp [String.data_append, String.data_push, strData_empty]
    · rw [show uptimeLoop ((period, name) :: rest) r acc = uptimeLoop rest r acc by
            simp [uptimeLoop, h]]
      rw [show uptimeComponents ((period, name) :: rest) r = uptimeComponents rest r by
            simp [uptimeComponents, h]]
      exact ih r acc

theorem foldl_joinStep_of_ne (l : List String) :
    ∀ acc : String, acc.isEmpty = false →
      l.foldl joinStep acc = acc ++ preJoin l := by
  induction l with
  | nil => intro acc _; simp [preJoin, strAppend_empty]
  | cons x rest ih =>
    intro acc hacc
    rw [List.foldl_cons]
    rw [show joinStep acc x = acc.push ' ' ++ x by simp [joinStep, hacc]]
    rw [ih _ (strIsEmpty_push_append _ _ _)]
    apply String.ext
    simp [preJoin, String.data_append, String.data_push]

theorem spaceJoin_eq_preJoin (x : String) (rest : List String) :
    spaceJoin (x :: rest) = x ++ preJoin rest := by
  induction rest generalizing x with
  | nil => simp [spaceJoin, preJoin, strAppend_empty]
  | cons y r ih =>
    rw [show spaceJoin (x :: y :: r) = x ++ " " ++ spaceJoin (y :: r) from rfl]
    rw [ih]
    apply String.ext
    simp [preJoin, String.data_append]

/-- Every emitted component has a positive count, so is a nonempty string;
this lets the fold with the source's `is_empty` test be rephrased as a plain
space-join. -/
theorem getUptime_eq_spaceJoin (n : Nat) :
    getUptime n = spaceJoin (uptimeComponents periodsList n) := by
  rw [getUptime, uptimeLoop_eq_foldl]
  cases hc : uptimeComponents periodsList n with
  | nil => simp [spaceJoin]
  | cons x rest =>
    have hx : ∃ t name, x = componentStr t name := by
      have : ∀ (ps : List (Nat × String)) (r : Nat) (x : String) (rest : List String),
          uptimeComponents ps r = x :: rest → ∃ t name, x = componentStr t name := by
        intro ps
        induction ps with
        | nil => intro r x rest h; simp [uptimeComponents] at h
        | cons hd tl ih =>
          intro r x rest h
          obtain ⟨period, name⟩ := hd
          by_cases hp : r / period > 0
          · simp [uptimeComponents, hp] at h
            exact ⟨r / period, name, h.1.symm⟩
          · simp [uptimeComponents, hp] at h
            exact ih _ _ _ h
      exact this _ _ _ _ hc
    obtain ⟨t, name, rfl⟩ := hx
    rw [List.foldl_cons]
    rw [show joinStep "" (componentStr t name) = componentStr t name by
          simp [joinStep]; exact strEmpty_append _]
    rw [foldl_joinStep_of_ne _ _ (componentStr_isEmpty_false t name)]
    rw [spaceJoin_eq_preJoin]

/-- Claim C1: the claim says `get_uptime` interprets its input as
centiseconds and truncates to whole seconds before decomposition, so that
`get_uptime 100 = "1 second"`, `get_uptime 6000 = "1 minute"` and
`get_uptime 360000 = "1 hour"`.  The code never divides by 100 (it casts the
input straight into `uptime_in_seconds`, contradicting the parameter name
`uptime_in_centiseconds` and the `Ignore decimal places` comment), so it
treats the value as whole seconds; this theorem evaluates the embedded code
at the claim's inputs. -/
theorem c1_get_uptime_treats_input_as_seconds :
    getUptime 0 = "" ∧
    getUptime 100 = "1 minute 40 seconds" ∧
    getUptime 6000 = "1 hour 40 minutes" ∧
    getUptime 360000 = "4 days 4 hours" := by
  refine ⟨rfl, by decide, by decide, by decide⟩

/-- Claim C5: for every input, `get_uptime` is the single-space join of the
non-zero components of the greedy decomposition along the fixed period
table, each rendered as `"<count> <unit>"` with the plural `"s"` appended
exactly when the count exceeds one, components with quotient zero omitted,
and the zero-duration input yielding the empty string; the period table is
(year, month, day, hour, minute, second) in strictly descending magnitude
order. -/
theorem c5_get_uptime_structure :
    (∀ n : Nat, getUptime n = spaceJoin (uptimeComponents periodsList n)) ∧
    getUptime 0 = "" ∧
    periodsList.map Prod.fst = [31536000, 2592000, 86400, 3600, 60, 1] ∧
    List.Chain' (· > ·) (periodsList.map Prod.fst) ∧
    periodsList.map Prod.snd = ["year", "month", "day", "hour", "minute", "second"] := by
  refine ⟨getUptime_eq_spaceJoin, rfl, by decide, ?_, by decide⟩
  rw [show periodsList.map Prod.fst = [31536000, 2592000, 86400, 3600, 60, 1] by decide]
  norm_num [List.chain'_cons]

/-! ## Byte pretty-printer: `pretty_bytes` (pulga.rs lines 79-94)

The source computes over `f64`; the embedding idealises the arithmetic over
`ℚ`, with `floor(ln num / ln 1024)` rendered as `Int.log 1024 num` (the
greatest `e` with `1024 ^ e ≤ num`, which is what the source's formula
computes for `num ≥ 1`). -/

/-- The fixed unit table of `pretty_bytes`, indexed by the power-of-1024
exponent. -/
def UNITS : List String := ["B", "kB", "MB", "GB", "TB"]

/-- Two decimal digits of `k` (used with `k < 100`). -/
def twoDigits (k : Nat) : String :=
  String.mk [Char.ofNat (48 + k / 10 % 10), Char.ofNat (48 + k % 10)]

/-- Round to the nearest integer, ties to even — the rounding Rust's
`{:.2}` float formatting applies. -/
def rnd (q : ℚ) : ℤ :=
  if q - ⌊q⌋ = 1 / 2 then (if 2 ∣ ⌊q⌋ then ⌊q⌋ else ⌊q⌋ + 1) else round q

/-- Models `format!("{:.2}", x)` for the nonnegative values `pretty_bytes`
passes to it: the value rounded to two decimal places, printed with exactly
two digits after the point. -/
def fmt2 (q : ℚ) : String :=
  let n := (rnd (q * 100)).toNat
  toString (n / 100) ++ "." ++ twoDigits (n % 100)

/-- Fuelled decimal expansion of a fraction `0 ≤ f < 1`, stopping at the
fuel bound or when the remainder is exhausted. -/
def fracDigits : Nat → ℚ → String
  | 0, _ => ""
  | fuel + 1, f =>
    let f10 := f * 10
    toString ⌊f10⌋.toNat ++ (if f10 - ⌊f10⌋ = 0 then "" else fracDigits fuel (f10 - ⌊f10⌋))

/-- Models Rust's plain `{}` Display of an `f64` (shortest round-trip
decimal), idealised over `ℚ`: an integral value prints with no point (Rust
prints `0`, not `0.0`), otherwise the integer part, a point, and the
fraction's digits (capped at 17 places, the most an `f64` Display emits).
`pretty_bytes` applies it only to `0 ≤ num < 1`. -/
def fmtRaw (q : ℚ) : String :=
  if q.den = 1 then toString q.num
  else toString ⌊q⌋ ++ "." ++ fracDigits 17 (q - ⌊q⌋)

/-- Embedding of `pretty_bytes`: sign peeled off, absolute value taken;
values below one short-circuit to the raw Display with unit `"B"`;
otherwise the power-of-1024 exponent is clamped to at most 4 and the scaled
value is printed to two decimals with the indexed unit. -/
def prettyBytes (num : ℚ) : String :=
  let negative := if num < 0 then "-" else ""
  let n := |num|
  if n < 1 then negative ++ fmtRaw n ++ " B"
  else
    let v1 : ℤ := Int.log 1024 n
    let exponent : ℤ := min v1 4
    let s := fmt2 (n / (1024 : ℚ) ^ exponent)
    negative ++ s ++ " " ++ UNITS.getD exponent.toNat ""

/-! ### Helper lemmas for evaluating `prettyBytes` -/

theorem rnd_natCast (n : ℕ) : rnd (n : ℚ) = n := by
  unfold rnd
  rw [Int.floor_natCast]
  rw [show ((n : ℚ) - ((n : ℤ) : ℚ)) = 0 by push_cast; ring]
  rw [if_neg (by norm_num : ¬((0 : ℚ) = 1 / 2))]
  exact round_natCast n

theorem fmt2_eq_of_mul_eq (q : ℚ) (n : ℕ) (h : q * 100 = (n : ℚ)) :
    fmt2 q = toString (n / 100) ++ "." ++ twoDigits (n % 100) := by
  unfold fmt2
  rw [h, rnd_natCast]
  simp

theorem intLog1024_eq (q : ℚ) (e : ℕ) (h1 : 1 ≤ q)
    (hl : (1024 : ℚ) ^ e ≤ q) (hu : q < (1024 : ℚ) ^ (e + 1)) :
    Int.log 1024 q = e := by
  have hq : (0 : ℚ) < q := lt_of_lt_of_le one_pos h1
  refine le_antisymm ?_ ?_
  · have hu' : q < (1024 : ℚ) ^ ((e + 1 : ℕ) : ℤ) := by
      rw [zpow_natCast]; exact_mod_cast hu
    have := (Int.lt_zpow_iff_log_lt (b := 1024) (by norm_num) hq).mp hu'
    omega
  · exact (Int.zpow_le_iff_le_log (by norm_num) hq).mp (by rw [zpow_natCast]; exact hl)

theorem prettyBytes_lt_one (m : ℚ) (h0 : 0 ≤ m) (h1 : m < 1) :
    prettyBytes m = fmtRaw m ++ " B" := by
  simp only [prettyBytes]
  rw [abs_of_nonneg h0, if_neg (not_lt.mpr h0), if_pos h1, strEmpty_append]

theorem prettyBytes_pos (m : ℚ) (e : ℕ) (h1 : 1 ≤ m) (he : e ≤ 4)
    (hlog : Int.log 1024 m = e) :
    prettyBytes m = fmt2 (m / (1024 : ℚ) ^ e) ++ " " ++ UNITS.getD e "" := by
  have h0 : (0 : ℚ) ≤ m := le_trans zero_le_one h1
  simp only [prettyBytes]
  rw [abs_of_nonneg h0, if_neg (not_lt.mpr h0), if_neg (not_lt.mpr h1), hlog]
  rw [min_eq_left (by exact_mod_cast he : (e : ℤ) ≤ 4)]
  rw [zpow_natCast, Int.toNat_natCast, strEmpty_append]

theorem prettyBytes_neg_eq (m : ℚ) (h : m < 0) :
    prettyBytes m = "-" ++ prettyBytes (-m) := by
  have h2 : (0 : ℚ) < -m := neg_pos.mpr h
  simp only [prettyBytes]
  rw [abs_of_neg h, abs_of_pos h2, if_pos h, if_neg (not_lt.mpr (le_of_lt h2))]
  by_cases h1 : -m < 1
  · rw [if_pos h1, if_pos h1]
    apply String.ext
    simp [String.data_append]
  · rw [if_neg h1, if_neg h1]
    apply String.ext
    simp [String.data_append]

theorem prettyBytes_1536 : prettyBytes 1536 = "1.50 kB" := by
  rw [prettyBytes_pos 1536 1 (by norm_num) (by norm_num)
        (intLog1024_eq _ 1 (by norm_num) (by norm_num) (by norm_num))]
  rw [fmt2_eq_of_mul_eq _ 150 (by norm_num)]
  decide

theorem prettyBytes_2048 : prettyBytes 2048 = "2.00 kB" := by
  rw [prettyBytes_pos 2048 1 (by norm_num) (by norm_num)
        (intLog1024_eq _ 1 (by norm_num) (by norm_num) (by norm_num))]
  rw [fmt2_eq_of_mul_eq _ 200 (by norm_num)]
  decide

theorem prettyBytes_zero : prettyBytes 0 = "0 B" := by
  rw [prettyBytes_lt_one 0 (le_refl 0) (by norm_num)]
  rw [show fmtRaw 0 = "0" from rfl]
  decide

/-- A string consisting of some text, a decimal point, and exactly two
decimal digits. -/
def twoDecimalForm (v : String) : Prop :=
  ∃ pre d1 d2, v = pre ++ "." ++ String.mk [d1, d2] ∧
    d1.isDigit = true ∧ d2.isDigit = true

theorem digitChar_isDigit (d : Nat) (hd : d < 10) :
    (Char.ofNat (48 + d)).isDigit = true := by
  interval_cases d <;> decide

theorem fmt2_twoDecimalForm (q : ℚ) : twoDecimalForm (fmt2 q) := by
  refine ⟨toString ((rnd (q * 100)).toNat / 100), _, _, rfl, ?_, ?_⟩
  · exact digitChar_isDigit _ (Nat.mod_lt _ (by norm_num))
  · exact digitChar_isDigit _ (Nat.mod_lt _ (by norm_num))

/-- Claim C7: for every magnitude at least `1024 ^ 4`, `pretty_bytes`
reports the unit `"TB"` — the power-of-1024 exponent is clamped to at most
4, so magnitudes beyond TB stay in TB. -/
theorem c7_pretty_bytes_tb_clamp :
    ∀ m : ℚ, (1024 : ℚ) ^ (4 : ℕ) ≤ m → ∃ s, prettyBytes m = s ++ " TB" := by
  intro m h
  have h1 : (1 : ℚ) ≤ m := le_trans (by norm_num) h
  have hq : (0 : ℚ) < m := lt_of_lt_of_le one_pos h1
  have hlog : (4 : ℤ) ≤ Int.log 1024 m :=
    (Int.zpow_le_iff_le_log (by norm_num) hq).mp
      (by rw [show ((4 : ℤ)) = ((4 : ℕ) : ℤ) from rfl, zpow_natCast]; exact h)
  refine ⟨fmt2 (m / (1024 : ℚ) ^ (4 : ℤ)), ?_⟩
  simp only [prettyBytes]
  rw [abs_of_pos hq, if_neg (not_lt.mpr (le_of_lt hq)), if_neg (not_lt.mpr h1)]
  rw [min_eq_right hlog]
  apply String.ext
  simp [String.data_append, UNITS]

/-- Witness for C7 at the concrete magnitude `1024 ^ 4`. -/
theorem c7_pretty_bytes_tb_clamp_witness :
    ∃ s, prettyBytes ((1024 : ℚ) ^ (4 : ℕ)) = s ++ " TB" :=
  c7_pretty_bytes_tb_clamp _ (le_refl _)

/-- Claim C8: magnitudes in `[0, 1)` short-circuit to the raw Display value
with unit `"B"` (not the two-decimal format); `pretty_bytes 0 = "0 B"`;
`pretty_bytes 1536 = "1.50 kB"`; and every magnitude at least 1 is printed
with exactly two digits after the decimal point, followed by a unit. -/
theorem c8_pretty_bytes_small_and_format :
    (∀ m : ℚ, 0 ≤ m → m < 1 → prettyBytes m = fmtRaw m ++ " B") ∧
    prettyBytes 0 = "0 B" ∧
    prettyBytes 1536 = "1.50 kB" ∧
    (∀ m : ℚ, 1 ≤ m → ∃ v u, prettyBytes m = v ++ " " ++ u ∧ twoDecimalForm v) := by
  refine ⟨prettyBytes_lt_one, prettyBytes_zero, prettyBytes_1536, ?_⟩
  intro m h1
  have h0 : (0 : ℚ) ≤ m := le_trans zero_le_one h1
  refine ⟨fmt2 (m / (1024 : ℚ) ^ (min (Int.log 1024 m) 4)),
          UNITS.getD (min (Int.log 1024 m) 4).toNat "", ?_, fmt2_twoDecimalForm _⟩
  simp only [prettyBytes]
  rw [abs_of_nonneg h0, if_neg (not_lt.mpr h0), if_neg (not_lt.mpr h1), strEmpty_append]

/-- Witness for C8 at the concrete magnitudes `1/2` and `3/2`. -/
theorem c8_pretty_bytes_small_and_format_witness :
    prettyBytes (1 / 2 : ℚ) = fmtRaw (1 / 2) ++ " B" ∧
    (∃ v u, prettyBytes (3 / 2 : ℚ) = v ++ " " ++ u ∧ twoDecimalForm v) :=
  ⟨c8_pretty_bytes_small_and_format.1 _ (by norm_num) (by norm_num),
   c8_pretty_bytes_small_and_format.2.2.2 _ (by norm_num)⟩

/-- Claim C9: for every negative magnitude, `pretty_bytes` is `"-"`
prepended to `pretty_bytes` of the absolute value; in particular
`pretty_bytes (-2048) = "-2.00 kB"`. -/
theorem c9_pretty_bytes_negative :
    (∀ m : ℚ, m < 0 → prettyBytes m = "-" ++ prettyBytes (-m)) ∧
    prettyBytes (-2048) = "-2.00 kB" := by
  refine ⟨prettyBytes_neg_eq, ?_⟩
  rw [prettyBytes_neg_eq _ (by norm_num), show (-(-2048 : ℚ)) = 2048 by norm_num,
      prettyBytes_2048]
  decide

/-- Witness for C9 at the concrete magnitude `-2048`. -/
theorem c9_pretty_bytes_negative_witness :
    prettyBytes (-2048 : ℚ) = "-" ++ prettyBytes (-(-2048 : ℚ)) :=
  c9_pretty_bytes_negative.1 (-2048) (by norm_num)

/-! ## Byte-level model of Rust string slicing

`get_distro` and `get_cpu_model` slice lines by BYTE index (`&line[..11]`,
`&line[13..]`, …).  Rust byte-slicing of a `&str` panics when the index is
out of bounds or falls inside a multi-byte character, so the embedding
works on the UTF-8 byte sequence of each line and records the panic
possibility in `RustResult`. -/

/-- UTF-8 encoding of one character. -/
def utf8Char (c : Char) : List Nat :=
  let n := c.toNat
  if n < 128 then [n]
  else if n < 2048 then [192 + n / 64, 128 + n % 64]
  else if n < 65536 then [224 + n / 4096, 128 + n / 64 % 64, 128 + n % 64]
  else [240 + n / 262144, 128 + n / 4096 % 64, 128 + n / 64 % 64, 128 + n % 64]

/-- UTF-8 byte sequence of a character list. -/
def lineBytes (l : List Char) : List Nat := l.flatMap utf8Char

/-- UTF-8 byte sequence of a string (Rust's `str::as_bytes` view). -/
def strBytes (s : String) : List Nat := lineBytes s.data

/-- Byte index `i` is a character boundary of the byte sequence `l`:
it is the end of the sequence, or the byte at `i` is not a UTF-8
continuation byte. -/
def boundaryAt (l : List Nat) (i : Nat) : Prop :=
  i = l.length ∨ l.getD i 0 < 128 ∨ 192 ≤ l.getD i 0

instance (l : List Nat) (i : Nat) : Decidable (boundaryAt l i) := by
  unfold boundaryAt; infer_instance

/-- Rust `&s[..i]`: `none` models the slicing panic (index out of bounds or
not on a character boundary). -/
def sliceTo (l : List Nat) (i : Nat) : Option (List Nat) :=
  if i ≤ l.length ∧ boundaryAt l i then some (l.take i) else none

/-- Rust `&s[i..]`: `none` models the slicing panic. -/
def sliceFrom (l : List Nat) (i : Nat) : Option (List Nat) :=
  if i ≤ l.length ∧ boundaryAt l i then some (l.drop i) else none

/-! ### Rust `str::lines` -/

/-- Split a character list at every `'\n'` (the separators are consumed;
a trailing separator still yields a final empty segment, as
`String.splitOn` would). -/
def splitNl : List Char → List (List Char)
  | [] => [[]]
  | c :: rest =>
    if c = '\n' then [] :: splitNl rest
    else
      match splitNl rest with
      | [] => [[c]]
      | r :: rs => (c :: r) :: rs

/-- Remove one trailing `'\r'` (Rust's `lines` treats `"\r\n"` as one line
ending). -/
def stripCR (l : List Char) : List Char :=
  if l.getLast? = some '\r' then l.dropLast else l

/-- Rust `lines` semantics on the segments produced by `splitNl`: every
segment but the last was terminated by `'\n'` and loses one trailing
`'\r'`; a final empty segment (trailing newline) is dropped; a final
non-empty segment is kept as-is. -/
def linesAux : List (List Char) → List (List Char)
  | [] => []
  | [last] => if last = [] then [] else [last]
  | l :: rest => stripCR l :: linesAux rest

/-- Rust `str::lines` of the string content. -/
def rustLines (s : String) : List (List Char) := linesAux (splitNl s.data)

/-! ## Distro identifier: `get_distro` (pulga.rs lines 165-175) -/

/-- Rust `trim_matches('"')`: strip every leading and trailing quote
byte. -/
def trimQuotes (l : List Nat) : List Nat :=
  ((l.dropWhile (· == 34)).reverse.dropWhile (· == 34)).reverse

/-- The scan loop of `get_distro`: lines whose byte length is below 11 are
skipped by the `filter`; otherwise the first 11 bytes are compared against
`PRETTY_NAME` and, on a match, the suffix from byte 13 is returned with
surrounding quotes trimmed.  Either slice can panic. -/
def distroScan : List (List Char) → RustResult (Option (List Nat))
  | [] => .value (some (strBytes "Linux"))
  | l :: rest =>
    let bs := lineBytes l
    if 11 ≤ bs.length then
      match sliceTo bs 11 with
      | none => .panicked
      | some pre =>
        if pre = strBytes "PRETTY_NAME" then
          match sliceFrom bs 13 with
          | none => .panicked
          | some suf => .value (some (trimQuotes suf))
        else distroScan rest
    else distroScan rest

/-- Embedding of `get_distro` as a function of the `/etc/os-release`
content (`none` = unreadable file). -/
def getDistro : Option String → RustResult (Option (List Nat))
  | none => .value none
  | some s => distroScan (rustLines s)

/-! ## CPU model: `get_cpu_model` (pulga.rs lines 210-222) -/

/-- ASCII whitespace bytes recognised by the model of Rust `str::trim`
(the source trims Unicode whitespace; the model covers the ASCII range,
which is all the claims exercise). -/
def isWsByte (b : Nat) : Bool :=
  b == 9 || b == 10 || b == 11 || b == 12 || b == 13 || b == 32

/-- Model of Rust `str::trim` on bytes. -/
def rustTrimBytes (l : List Nat) : List Nat :=
  ((l.dropWhile isWsByte).reverse.dropWhile isWsByte).reverse

/-- The scan loop of `get_cpu_model`: lines of byte length under 11 are
skipped; otherwise the first 10 bytes are compared against `model name`
and, on a match, the suffix from byte 12 is split at the first `'@'` and
trimmed.  Either slice can panic. -/
def cpuScan : List (List Char) → RustResult (Option (List Nat))
  | [] => .value none
  | l :: rest =>
    let bs := lineBytes l
    if bs.length < 11 then cpuScan rest
    else
      match sliceTo bs 10 with
      | none => .panicked
      | some pre =>
        if pre = strBytes "model name" then
          match sliceFrom bs 12 with
          | none => .panicked
          | some suf => .value (some (rustTrimBytes (suf.takeWhile (· != 64))))
        else cpuScan rest

/-- Embedding of `get_cpu_model` as a function of the `/proc/cpuinfo`
content (`none` = unreadable file). -/
def getCpuModel : Option String → RustResult (Option (List Nat))
  | none => .value none
  | some s => cpuScan (rustLines s)

/-! ### Lemmas about the scans -/

/-- A line whose first 11 bytes are the key `PRETTY_NAME`. -/
def distroLineMatches (l : List Char) : Prop :=
  11 ≤ (lineBytes l).length ∧ (lineBytes l).take 11 = strBytes "PRETTY_NAME"

instance (l : List Char) : Decidable (distroLineMatches l) := by
  unfold distroLineMatches; infer_instance

/-- A line on which the probe slice `&line[..11]` of `get_distro` cannot
panic: if the line has at least 11 bytes, byte 11 is a character
boundary. -/
def distroLineSafe (l : List Char) : Prop :=
  11 ≤ (lineBytes l).length → boundaryAt (lineBytes l) 11

instance (l : List Char) : Decidable (distroLineSafe l) := by
  unfold distroLineSafe; infer_instance

theorem lineBytes_cons (c : Char) (rest : List Char) :
    lineBytes (c :: rest) = utf8Char c ++ lineBytes rest := rfl

theorem utf8Char_ascii (c : Char) (h : c.toNat < 128) : utf8Char c = [c.toNat] := by
  unfold utf8Char
  simp [h]

theorem utf8Char_head_of_not_ascii (c : Char) (h : ¬ c.toNat < 128) :
    ∃ b t, utf8Char c = b :: t ∧ 192 ≤ b := by
  unfold utf8Char
  by_cases h2 : c.toNat < 2048
  · exact ⟨192 + c.toNat / 64, [128 + c.toNat % 64], by simp [h, h2], by omega⟩
  · by_cases h3 : c.toNat < 65536
    · exact ⟨224 + c.toNat / 4096, [128 + c.toNat / 64 % 64, 128 + c.toNat % 64],
        by simp [h, h2, h3], by omega⟩
    · exact ⟨240 + c.toNat / 262144,
        [128 + c.toNat / 4096 % 64, 128 + c.toNat / 64 % 64, 128 + c.toNat % 64],
        by simp [h, h2, h3], by omega⟩

theorem boundaryAt_cons_succ (x : Nat) (bs : List Nat) (k : Nat) :
    boundaryAt (x :: bs) (k + 1) ↔ boundaryAt bs k := by
  unfold boundaryAt
  simp only [List.getD_cons_succ, List.length_cons]
  omega

/-- If the first `k` bytes of a line's UTF-8 encoding are all ASCII and the
encoding has at least `k` bytes, then `k` is a character boundary. -/
theorem boundaryAt_of_ascii_take :
    ∀ (l : List Char) (k : Nat), (∀ b ∈ (lineBytes l).take k, b < 128) →
      k ≤ (lineBytes l).length → boundaryAt (lineBytes l) k := by
  intro l
  induction l with
  | nil =>
    intro k _ hk
    left
    simp only [lineBytes, List.flatMap_nil, List.length_nil] at hk ⊢
    omega
  | cons c rest ih =>
    intro k hascii hk
    by_cases hc : c.toNat < 128
    · rw [lineBytes_cons, utf8Char_ascii c hc] at hascii hk ⊢
      simp only [List.cons_append, List.nil_append] at hascii hk ⊢
      cases k with
      | zero =>
        right; left
        simpa using hc
      | succ k' =>
        simp only [List.length_cons] at hk
        rw [boundaryAt_cons_succ]
        refine ih k' ?_ (by omega)
        intro b hb
        exact hascii b (by simp [List.take_succ_cons, hb])
    · obtain ⟨b, t, hbt, hb⟩ := utf8Char_head_of_not_ascii c hc
      rw [lineBytes_cons, hbt] at hascii ⊢
      cases k with
      | zero =>
        right; right
        simpa using hb
      | succ k' =>
        exfalso
        have : b < 128 := hascii b (by simp [List.take_succ_cons])
        omega

theorem sliceTo_eq_some (bs : List Nat) (i : Nat) (hle : i ≤ bs.length)
    (hb : boundaryAt bs i) : sliceTo bs i = some (bs.take i) := by
  unfold sliceTo
  rw [if_pos ⟨hle, hb⟩]

theorem sliceFrom_eq_some (bs : List Nat) (i : Nat) (hle : i ≤ bs.length)
    (hb : boundaryAt bs i) : sliceFrom bs i = some (bs.drop i) := by
  unfold sliceFrom
  rw [if_pos ⟨hle, hb⟩]

theorem distroScan_cons_skip (l : List Char) (rest : List (List Char))
    (hsafe : distroLineSafe l) (hnm : ¬ distroLineMatches l) :
    distroScan (l :: rest) = distroScan rest := by
  simp only [distroScan]
  by_cases hlen : 11 ≤ (lineBytes l).length
  · rw [if_pos hlen, sliceTo_eq_some _ _ hlen (hsafe hlen)]
    show (if List.take 11 (lineBytes l) = strBytes "PRETTY_NAME" then
            match sliceFrom (lineBytes l) 13 with
            | none => RustResult.panicked
            | some suf => RustResult.value (some (trimQuotes suf))
          else distroScan rest) = distroScan rest
    rw [if_neg (fun heq => hnm ⟨hlen, heq⟩)]
  · rw [if_neg hlen]

theorem distroScan_cons_match (l : List Char) (rest : List (List Char))
    (hm : distroLineMatches l) (hlen13 : 13 ≤ (lineBytes l).length)
    (hb13 : boundaryAt (lineBytes l) 13) :
    distroScan (l :: rest) = .value (some (trimQuotes ((lineBytes l).drop 13))) := by
  have hb11 : boundaryAt (lineBytes l) 11 := by
    refine boundaryAt_of_ascii_take l 11 ?_ hm.1
    rw [hm.2]
    decide
  simp only [distroScan]
  rw [if_pos hm.1, sliceTo_eq_some _ _ hm.1 hb11]
  show (if List.take 11 (lineBytes l) = strBytes "PRETTY_NAME" then
          match sliceFrom (lineBytes l) 13 with
          | none => RustResult.panicked
          | some suf => RustResult.value (some (trimQuotes suf))
        else distroScan rest) = _
  rw [if_pos hm.2, sliceFrom_eq_some _ _ hlen13 hb13]

theorem distroScan_all_skip (ls : List (List Char))
    (h : ∀ l ∈ ls, distroLineSafe l ∧ ¬ distroLineMatches l) :
    distroScan ls = .value (some (strBytes "Linux")) := by
  induction ls with
  | nil => rfl
  | cons l rest ih =>
    rw [distroScan_cons_skip l rest (h l (by simp)).1 (h l (by simp)).2]
    exact ih (fun l' hl' => h l' (by simp [hl']))

theorem distroScan_append (pre : List (List Char)) (l : List Char)
    (post : List (List Char))
    (hpre : ∀ l' ∈ pre, distroLineSafe l' ∧ ¬ distroLineMatches l')
    (hm : distroLineMatches l) (hlen13 : 13 ≤ (lineBytes l).length)
    (hb13 : boundaryAt (lineBytes l) 13) :
    distroScan (pre ++ l :: post) =
      .value (some (trimQuotes ((lineBytes l).drop 13))) := by
  induction pre with
  | nil => simpa using distroScan_cons_match l post hm hlen13 hb13
  | cons p ps ih =>
    rw [List.cons_append,
        distroScan_cons_skip p _ (hpre p (by simp)).1 (hpre p (by simp)).2]
    exact ih (fun l' hl' => hpre l' (by simp [hl']))

/-- Claim C3 counterexample: the claim says that whenever a line whose
first 11 characters are `PRETTY_NAME` exists, `get_distro` returns the
substring from offset 13; on the readable file consisting of the single
11-byte line `PRETTY_NAME` the code instead panics (the slice `[13..]` is
out of bounds), returning no value at all. -/
theorem c3_get_distro_counterexample :
    getDistro (some "PRETTY_NAME") = .panicked ∧
    getDistro (some "PRETTY_NAME") ≠ .value (some (strBytes "Linux")) := by
  decide

/-- Claim C3 (amended): `get_distro` returns absent for an unreadable
file; for a readable file in which no line of at least 11 bytes has the
key as its first 11 bytes (and byte 11 of every such line is a character
boundary) it returns the literal `"Linux"`; and when a matching line
exists — provided it has at least 13 bytes with a character boundary
there, and the lines before it are non-matching and probe-safe — it
returns the substring from byte offset 13 with surrounding quotes
trimmed; a file containing `PRETTY_NAME="Test Linux"` yields
`"Test Linux"`. -/
theorem c3_get_distro_paths :
    getDistro none = .value none ∧
    (∀ s : String, (∀ l ∈ rustLines s, distroLineSafe l ∧ ¬ distroLineMatches l) →
      getDistro (some s) = .value (some (strBytes "Linux"))) ∧
    (∀ (s : String) (pre : List (List Char)) (l : List Char)
        (post : List (List Char)),
      rustLines s = pre ++ l :: post →
      (∀ l' ∈ pre, distroLineSafe l' ∧ ¬ distroLineMatches l') →
      distroLineMatches l →
      13 ≤ (lineBytes l).length → boundaryAt (lineBytes l) 13 →
      getDistro (some s) = .value (some (trimQuotes ((lineBytes l).drop 13)))) ∧
    getDistro (some "PRETTY_NAME=\"Test Linux\"") =
      .value (some (strBytes "Test Linux")) := by
  refine ⟨rfl, ?_, ?_, by decide⟩
  · intro s h
    exact distroScan_all_skip _ h
  · intro s pre l post hls hpre hm h13 hb
    show distroScan (rustLines s) = _
    rw [hls]
    exact distroScan_append pre l post hpre hm h13 hb

/-- Witness for C3 on concrete file contents exercising the `"Linux"`
fallback path and the matching path. -/
theorem c3_get_distro_paths_witness :
    getDistro (some "ID=arch") = .value (some (strBytes "Linux")) ∧
    getDistro (some "ID=arch\nPRETTY_NAME=\"Arch Linux\"") =
      .value (some (trimQuotes ((lineBytes ("PRETTY_NAME=\"Arch Linux\"".data)).drop 13))) :=
  ⟨c3_get_distro_paths.2.1 _ (by decide),
   c3_get_distro_paths.2.2.1 _ (["ID=arch".data]) _ ([]) (by decide) (by decide)
     (by decide) (by decide) (by decide)⟩

/-- Claim C4: the claim says the byte-index slices of `get_distro` and
`get_cpu_model` never go out of bounds or split a character, for every
readable content.  The guards (`len() >= 11`) were clearly meant to ensure
this but use the wrong bound: an 11- or 12-byte matching line makes the
`[13..]` (resp. `[12..]`) slice panic, and a multi-byte character
straddling byte 11 (resp. 10) makes the probe slice panic.  This theorem
evaluates the embedded code at such inputs. -/
theorem c4_parser_slice_guards_insufficient :
    getDistro (some "PRETTY_NAME=") = .panicked ∧
    getCpuModel (some "model name:") = .panicked ∧
    getDistro (some "aaaaaaaaaaé") = .panicked ∧
    getCpuModel (some "model namé x") = .panicked := by
  decide

/-! ## Desktop environment classifier: `get_desktop_environment`
(pulga.rs lines 275-292) -/

/-- Split a character list at every occurrence of `sep` (separators
consumed). -/
def splitOnCh (sep : Char) : List Char → List (List Char)
  | [] => [[]]
  | c :: rest =>
    if c = sep then [] :: splitOnCh sep rest
    else
      match splitOnCh sep rest with
      | [] => [[c]]
      | r :: rs => (c :: r) :: rs

/-- Modelled from the spec: `get_base` lives in `util.rs`, which is not
among the sources under verification; per spec section 4.9 and the
glossary it strips any leading directory path and returns only the final
path segment. -/
def get_base (s : String) : String :=
  String.mk ((splitOnCh '/' s.data).getLastD s.data)

/-- Models Rust `str::to_lowercase`; the model lowercases the ASCII range
(`Char.toLower`), which is all the claims exercise. -/
def lowerStr (s : String) : String := String.mk (s.data.map Char.toLower)

/-- Does `pat` occur as a contiguous sublist of the list? -/
def containsAux (pat : List Char) : List Char → Bool
  | [] => pat.isEmpty
  | c :: rest => pat.isPrefixOf (c :: rest) || containsAux pat rest

/-- Substring containment, Rust `str::contains(&str)`. -/
def containsSub (hay pat : String) : Bool := containsAux pat.data hay.data

/-- Embedding of `get_desktop_environment` as a function of the
`DESKTOP_SESSION` environment variable (`none` = unset): base-name,
lowercased, then first-match-wins substring containment against the fixed
ordered table. -/
def getDesktopEnvironment : Option String → String
  | none => "Unknown"
  | some v =>
    let env := lowerStr (get_base v)
    if containsSub env "gnome" then "Gnome"
    else if containsSub env "lxde" then "LXDE"
    else if containsSub env "openbox" then "OpenBox"
    else if containsSub env "i3" then "i3"
    else if containsSub env "ubuntu" then "Ubuntu"
    else if containsSub env "plasma" then "KDE"
    else if containsSub env "mate" then "MATE"
    else env

/-- Claim C6: unset `DESKTOP_SESSION` yields `"Unknown"`;
`/usr/share/xsessions/i3` yields `"i3"`; the unrecognized value `"foobar"`
yields `"foobar"` itself; when no table entry is contained in the
lowercased base-name the lowercased base-name itself is returned; and when
`plasma` is contained (and no earlier table entry is), the result is
`"KDE"`. -/
theorem c6_desktop_classifier :
    getDesktopEnvironment none = "Unknown" ∧
    getDesktopEnvironment (some "/usr/share/xsessions/i3") = "i3" ∧
    getDesktopEnvironment (some "foobar") = "foobar" ∧
    (∀ v : String,
      containsSub (lowerStr (get_base v)) "gnome" = false →
      containsSub (lowerStr (get_base v)) "lxde" = false →
      containsSub (lowerStr (get_base v)) "openbox" = false →
      containsSub (lowerStr (get_base v)) "i3" = false →
      containsSub (lowerStr (get_base v)) "ubuntu" = false →
      containsSub (lowerStr (get_base v)) "plasma" = false →
      containsSub (lowerStr (get_base v)) "mate" = false →
      getDesktopEnvironment (some v) = lowerStr (get_base v)) ∧
    (∀ v : String,
      containsSub (lowerStr (get_base v)) "gnome" = false →
      containsSub (lowerStr (get_base v)) "lxde" = false →
      containsSub (lowerStr (get_base v)) "openbox" = false →
      containsSub (lowerStr (get_base v)) "i3" = false →
      containsSub (lowerStr (get_base v)) "ubuntu" = false →
      containsSub (lowerStr (get_base v)) "plasma" = true →
      getDesktopEnvironment (some v) = "KDE") := by
  refine ⟨rfl, by decide, by decide, ?_, ?_⟩
  · intro v h1 h2 h3 h4 h5 h6 h7
    simp [getDesktopEnvironment, h1, h2, h3, h4, h5, h6, h7]
  · intro v h1 h2 h3 h4 h5 h6
    simp [getDesktopEnvironment, h1, h2, h3, h4, h5, h6]

/-- Witness for C6 on the concrete session values `"xyz"` (no table match)
and `"plasma-wayland"` (plasma match). -/
theorem c6_desktop_classifier_witness :
    getDesktopEnvironment (some "xyz") = lowerStr (get_base "xyz") ∧
    getDesktopEnvironment (some "plasma-wayland") = "KDE" :=
  ⟨c6_desktop_classifier.2.2.2.1 "xyz" (by decide) (by decide) (by decide)
     (by decide) (by decide) (by decide) (by decide),
   c6_desktop_classifier.2.2.2.2 "plasma-wayland" (by decide) (by decide)
     (by decide) (by decide) (by decide) (by decide)⟩

/-! ## CPU max frequency: `get_cpu_max_freq` (pulga.rs lines 65-77) -/

/-- ASCII whitespace characters for the model of Rust `str::trim` (the
source trims Unicode whitespace; the claims exercise only the ASCII
range). -/
def isWsChar (c : Char) : Bool :=
  c == ' ' || c == '\t' || c == '\n' || c == '\r' || c.toNat == 11 || c.toNat == 12

/-- Model of Rust `str::trim` on the character list of a string. -/
def trimStr (s : String) : String :=
  String.mk (((s.data.dropWhile isWsChar).reverse.dropWhile isWsChar).reverse)

/-- Model of Rust `str::parse::<usize>()`: an optional leading `'+'`, then
one or more ASCII digits, rejecting the empty digit string and values at
or above `2 ^ 64` (the `usize` overflow error on a 64-bit host). -/
def parseUsize (s : String) : Option Nat :=
  let cs := match s.data with
    | '+' :: rest => rest
    | cs => cs
  if cs ≠ [] ∧ cs.all Char.isDigit then
    let n := cs.foldl (fun a c => 10 * a + (c.toNat - 48)) 0
    if n < 2 ^ 64 then some n else none
  else none

/-- Embedding of `get_cpu_max_freq` as a function of the sysfs
`scaling_max_freq` file content (`none` = unreadable): trimmed content
parsed as `usize`, divided by 1,000,000 and printed to two decimals with a
`" GHz"` suffix; read or parse failure gives absent. -/
def getCpuMaxFreq (file : Option String) : Option String :=
  match file with
  | none => none
  | some content =>
    (parseUsize (trimStr content)).map (fun (n : ℕ) => fmt2 ((n : ℚ) / 1000000) ++ " GHz")

/-- Claim C10: `get_cpu_max_freq` returns absent exactly when the file is
unreadable or its trimmed content does not parse as an unsigned integer;
otherwise it returns the parsed value divided by 1,000,000, formatted to
two decimals, with a `" GHz"` suffix; the content `" 2200000\n"` yields
`"2.20 GHz"`. -/
theorem c10_cpu_max_freq :
    getCpuMaxFreq none = none ∧
    (∀ c : String, getCpuMaxFreq (some c) = none ↔ parseUsize (trimStr c) = none) ∧
    (∀ (c : String) (n : ℕ), parseUsize (trimStr c) = some n →
      getCpuMaxFreq (some c) = some (fmt2 ((n : ℚ) / 1000000) ++ " GHz")) ∧
    getCpuMaxFreq (some " 2200000\n") = some "2.20 GHz" := by
  refine ⟨rfl, ?_, ?_, ?_⟩
  · intro c
    cases h : parseUsize (trimStr c) <;> simp [getCpuMaxFreq, h]
  · intro c n h
    simp [getCpuMaxFreq, h]
  · have hp : parseUsize (trimStr " 2200000\n") = some 2200000 := by decide
    simp only [getCpuMaxFreq, hp, Option.map_some']
    rw [fmt2_eq_of_mul_eq _ 220 (by push_cast; norm_num)]
    decide

/-- Witness for C10 on the concrete parsable content `"800000"`. -/
theorem c10_cpu_max_freq_witness :
    getCpuMaxFreq (some "800000") =
      some (fmt2 (((800000 : ℕ) : ℚ) / 1000000) ++ " GHz") :=
  c10_cpu_max_freq.2.2.1 "800000" 800000 (by decide)

/-! ## Aggregator: `get_user_data` (pulga.rs lines 97-145)

The aggregator is embedded as a function of a record of sub-lookup
outcomes (`none` = the sub-lookup failed / the value was absent), the
granularity at which the spec describes it.  The one OS facility the
aggregator consumes directly is the current-working-directory lookup,
whose result it `unwrap`s — a failure there is a panic of the aggregator
itself, modelled by `RustResult.panicked`. -/

/-- The aggregate result record (14 string fields, source order). -/
structure UserData where
  username : String
  hostname : String
  cpu_info : String
  cwd : String
  hmd : String
  shell : String
  desk_env : String
  distro : String
  uptime : String
  editor : String
  kernel_version : String
  total_memory : String
  used_memory : String
  monitor_res : String
deriving DecidableEq, Repr

/-- Outcomes of the sub-lookups and collaborator snapshots that
`get_user_data` assembles. -/
structure Outcomes where
  pwuid : Option (String × String × String)
  currentDir : Option String
  unameRelease : String
  unameMachine : String
  hostname : Option String
  distro : Option String
  cpuModel : Option String
  logicalCpus : Nat
  cpuMaxFreq : Option String
  editor : Option String
  deskEnv : String
  sysUptime : Nat
  sysTotalRam : Nat
  sysFreeRam : Nat
  screenRes : Option String
deriving DecidableEq, Repr

/-- `usize` subtraction as the release profile compiles it: wrapping
modulo `2 ^ 64`. -/
def wrapSub64 (a b : Nat) : Nat := (((a : ℤ) - b).emod (2 ^ 64)).toNat

/-- The record assembly of `get_user_data`, given the already-unwrapped
current working directory: every absent sub-lookup is independently
replaced by its literal default (`"Unknown"`, `"Linux"`,
`"Unknown Freq."`) before the field is built. -/
def mkUserData (o : Outcomes) (cwd : String) : UserData :=
  let (username, homeDir, shell) := o.pwuid.getD ("Unknown", "Unknown", "Unknown")
  { username := username
    hostname := o.hostname.getD "Unknown"
    cpu_info := o.cpuModel.getD "Unknown" ++ " - " ++ toString o.logicalCpus
        ++ "x " ++ o.cpuMaxFreq.getD "Unknown Freq."
    cwd := cwd
    hmd := homeDir
    shell := shell
    desk_env := o.deskEnv
    distro := o.distro.getD "Linux" ++ " (" ++ o.unameMachine ++ ")"
    uptime := getUptime o.sysUptime
    editor := o.editor.getD "Unknown"
    kernel_version := o.unameRelease
    total_memory := prettyBytes (o.sysTotalRam : ℚ)
    used_memory := prettyBytes ((wrapSub64 o.sysTotalRam o.sysFreeRam : ℕ) : ℚ)
    monitor_res := o.screenRes.getD "Unknown" }

/-- Embedding of `get_user_data`: the source `unwrap`s
`env::current_dir()`, so a failed cwd lookup panics the aggregator; every
other sub-lookup failure is absorbed into a default. -/
def getUserData (o : Outcomes) : RustResult UserData :=
  match o.currentDir with
  | none => .panicked
  | some cwd => .value (mkUserData o cwd)

/-- An outcome record in which every fallible sub-lookup failed, including
the current-working-directory lookup. -/
def cwdFailureOutcomes : Outcomes :=
  { pwuid := none, currentDir := none, unameRelease := "", unameMachine := "",
    hostname := none, distro := none, cpuModel := none, logicalCpus := 1,
    cpuMaxFreq := none, editor := none, deskEnv := "Unknown", sysUptime := 0,
    sysTotalRam := 0, sysFreeRam := 0, screenRes := none }

/-- An outcome record in which every fallible sub-lookup failed except the
current-working-directory lookup. -/
def allAbsentOutcomes : Outcomes :=
  { pwuid := none, currentDir := some "/", unameRelease := "", unameMachine := "",
    hostname := none, distro := none, cpuModel := none, logicalCpus := 1,
    cpuMaxFreq := none, editor := none, deskEnv := "Unknown", sysUptime := 0,
    sysTotalRam := 0, sysFreeRam := 0, screenRes := none }

/-- Claim C2 counterexample: the claim says `get_user_data` returns a
fully populated record for every combination of sub-lookup outcomes,
including every OS facility failing, and never panics.  When the
current-working-directory lookup fails the source's
`env::current_dir().unwrap()` panics, so the aggregator produces no record
at all. -/
theorem c2_get_user_data_counterexample :
    getUserData cwdFailureOutcomes = .panicked := rfl

/-- Claim C2 (amended): except for the current-working-directory lookup —
which the aggregator `unwrap`s, panicking when it fails — `get_user_data`
is total: for every combination of the remaining sub-lookup outcomes it
returns a fully populated record, and with every sub-lookup absent each
field carries its literal default. -/
theorem c2_get_user_data_total_except_cwd :
    (∀ o : Outcomes, o.currentDir.isSome = true →
      ∃ u : UserData, getUserData o = .value u) ∧
    getUserData allAbsentOutcomes = .value
      { username := "Unknown", hostname := "Unknown",
        cpu_info := "Unknown - 1x Unknown Freq.", cwd := "/", hmd := "Unknown",
        shell := "Unknown", desk_env := "Unknown", distro := "Linux ()",
        uptime := "", editor := "Unknown", kernel_version := "",
        total_memory := "0 B", used_memory := "0 B", monitor_res := "Unknown" } := by
  constructor
  · intro o h
    cases ho : o.currentDir with
    | none => rw [ho] at h; cases h
    | some d =>
      refine ⟨mkUserData o d, ?_⟩
      unfold getUserData
      rw [ho]
  · have h0 : prettyBytes ((0 : ℕ) : ℚ) = "0 B" := by
      rw [Nat.cast_zero]; exact prettyBytes_zero
    have hw : prettyBytes ((wrapSub64 0 0 : ℕ) : ℚ) = "0 B" := by
      rw [show wrapSub64 0 0 = 0 from rfl, Nat.cast_zero]; exact prettyBytes_zero
    show RustResult.value (mkUserData allAbsentOutcomes "/") = _
    simp only [mkUserData, allAbsentOutcomes]
    rw [h0, hw]
    decide

/-- Witness for C2 applying the totality part at the concrete all-absent
outcome record. -/
theorem c2_get_user_data_total_except_cwd_witness :
    ∃ u : UserData, getUserData allAbsentOutcomes = .value u :=
  c2_get_user_data_total_except_cwd.1 allAbsentOutcomes rfl

end Newfetch
